import Mathlib

/-!
Verification of the audio-backend core of this repository: the abstract
`AudioBackend` contract (track-metadata reconciliation, `track_info`,
`shutdown`) from `mycroft/audio/services/__init__.py` and the concrete
`MPlayerService` backend from `mycroft/audio/services/mplayer/__init__.py`.

Python dictionaries are embedded as insertion-ordered association lists,
Python scalar values (strings, integers, None) as the inductive `Val`,
and Python truthiness as `truthy`.  Operations that can raise a Python
exception (`KeyError` from `self.track_data[index]`) return `Except`.
The mplayer backend's interaction with the external engine handle
(`self.mpc`) is recorded as a trace of `EngineCall`s together with the
engine volume it maintains.
-/

set_option maxHeartbeats 1000000

/-- A Python scalar value as it appears in status-event payloads and
metadata records: a string, an integer, or `None`. -/
inductive Val
  | str : String → Val
  | int : Int → Val
  | none : Val
  deriving DecidableEq, Repr

/-- Python truthiness of a `Val`: `None`, the empty string and `0` are
falsy, everything else is truthy. -/
def truthy : Val → Bool
  | Val.str s => !(s == "")
  | Val.int n => !(n == 0)
  | Val.none => false

/-- A Python dict with string keys (a metadata record or an event
payload), embedded as an insertion-ordered association list. -/
abbrev MetaDict := List (String × Val)

/-- The per-backend `track_data` store: a Python dict from playlist
index (an arbitrary hashable value, here a `Val`) to metadata record. -/
abbrev TrackData := List (Val × MetaDict)

/-- Lookup in an association list: first binding of the key wins
(Python `d[k]` / `d.get(k)` on a duplicate-free dict). -/
def alGet {α β : Type} [DecidableEq α] : List (α × β) → α → Option β
  | [], _ => Option.none
  | (k', v) :: rest, k => if k' = k then some v else alGet rest k

/-- Update in an association list: replace the first binding of the key
in place, or append a new binding at the end (Python `d[k] = v`,
which preserves insertion order). -/
def alSet {α β : Type} [DecidableEq α] : List (α × β) → α → β → List (α × β)
  | [], k, v => [(k, v)]
  | (k', v') :: rest, k, v =>
      if k' = k then (k, v) :: rest else (k', v') :: alSet rest k v

/-- Python `d.get(k)`: the stored value, or `None` when the key is
absent. -/
def pyGet (d : MetaDict) (k : String) : Val := (alGet d k).getD Val.none

/-- Python `d.get(k, dflt)`. -/
def pyGetD (d : MetaDict) (k : String) (dflt : Val) : Val := (alGet d k).getD dflt

/-- `AudioBackend.uri2index`: scan `track_data` in insertion order and
return the first index whose record's `uri` field (defaulting to the
empty string) equals the given uri, or `None` when no entry matches. -/
def uri2index : TrackData → Val → Option Val
  | [], _ => Option.none
  | (idx, md) :: rest, uri =>
      if pyGetD md "uri" (Val.str "") = uri then some idx else uri2index rest uri

/-- The index that `AudioBackend.handle_track_status` settles on:
`message.data.get("playlist_position")`, except that when that is
`None` and the event's `uri` is truthy the index is resolved through
`uri2index` (with `uri2index`'s `None` answer left as `None`). -/
def resolvedIndex (store : TrackData) (data : MetaDict) : Val :=
  let index := pyGet data "playlist_position"
  let uri := pyGet data "uri"
  if index = Val.none ∧ truthy uri = true then
    match uri2index store uri with
    | some idx => idx
    | Option.none => Val.none
  else index

/-- The merge loop of `handle_track_status`:
`for k in message.data: if message.data[k]: self.track_data[index][k] = message.data[k]`.
Each truthy field is written through `self.track_data[index]`, which
raises `KeyError` when `index` is not a key of the store; falsy fields
are skipped without touching the store. -/
def mergeLoop (store : TrackData) (index : Val) : MetaDict → Except String TrackData
  | [] => Except.ok store
  | (k, v) :: rest =>
      if truthy v then
        match alGet store index with
        | some md => mergeLoop (alSet store index (alSet md k v)) index rest
        | Option.none => Except.error "KeyError"
      else mergeLoop store index rest

/-- `AudioBackend.handle_track_status` acting on the `track_data` store:
determine the index from `playlist_position` or by uri resolution, and
when an index was determined run the merge loop over the payload;
otherwise leave the store untouched. -/
def handle_track_status (store : TrackData) (data : MetaDict) : Except String TrackData :=
  let index := resolvedIndex store data
  if index = Val.none then Except.ok store else mergeLoop store index data

/-- The effect of one event's merge loop on a single record: every
truthy field of the payload overwrites the corresponding field, in
payload order; falsy fields are skipped. -/
def mergeFields (md : MetaDict) : MetaDict → MetaDict
  | [] => md
  | (k, v) :: rest => mergeFields (if truthy v then alSet md k v else md) rest

/-- Deliver a sequence of status events to `handle_track_status`,
stopping at the first raised exception. -/
def applyEvents (store : TrackData) : List MetaDict → Except String TrackData
  | [] => Except.ok store
  | e :: rest =>
      match handle_track_status store e with
      | Except.ok s => applyEvents s rest
      | Except.error msg => Except.error msg

/-- Fold `mergeFields` over a sequence of event payloads. -/
def foldMerge (md : MetaDict) : List MetaDict → MetaDict
  | [] => md
  | e :: rest => foldMerge (mergeFields md e) rest

/-- Left-biased choice on optional values. -/
def oor : Option Val → Option Val → Option Val
  | some v, _ => some v
  | Option.none, o => o

/-- The last truthy value an event payload writes for a given key, if
any. -/
def lastWrite : MetaDict → String → Option Val
  | [], _ => Option.none
  | (k', v) :: rest, k =>
      oor (lastWrite rest k) (if k' = k ∧ truthy v = true then some v else Option.none)

/-- The last truthy value any event of a sequence writes for a given
key, if any (later events win). -/
def multiWrite : List MetaDict → String → Option Val
  | [], _ => Option.none
  | e :: rest, k => oor (multiWrite rest k) (lastWrite e k)

/-- No two events of the sequence (nor one event twice) carry different
truthy values for the same field. -/
def noConflict (events : List MetaDict) : Prop :=
  ∀ e1 ∈ events, ∀ e2 ∈ events, ∀ k v1 v2,
    (k, v1) ∈ e1 → (k, v2) ∈ e2 → truthy v1 = true → truthy v2 = true → v1 = v2

/-- `AudioBackend.track_info`: when `self.index` is not a key of
`track_data` return the fresh record `{"track_number": self.index}`
and leave the store alone; otherwise write
`track_data[self.index]["track_number"] = self.index` into the store
and return that stored record. The call returns the (possibly updated)
store together with the returned record. -/
def AudioBackend.track_info (store : TrackData) (index : Int) : TrackData × MetaDict :=
  match alGet store (Val.int index) with
  | Option.none => (store, [("track_number", Val.int index)])
  | some md =>
      let md2 := alSet md "track_number" (Val.int index)
      (alSet store (Val.int index) md2, md2)

/-- `AudioBackend.shutdown`: the base-class clean shutdown is exactly
one call to the backend's (abstract) `stop`, whose state effect is
given by `stopImpl`. -/
def AudioBackend.shutdown {σ : Type} (stopImpl : σ → σ × Bool) (s : σ) : σ :=
  (stopImpl s).1

/-- A call issued to the mplayer engine handle `self.mpc`. -/
inductive EngineCall
  | mstop : EngineCall
  | loadfile : String → Bool → EngineCall
  | destroy : EngineCall
  deriving DecidableEq, Repr

/-- The state of an `MPlayerService` instance: the playlist index, the
remembered pre-ducking volume `normal_volume`, the pending `tracks`
playlist, the engine volume `self.mpc.volume`, the trace of calls
issued to the engine handle, and the inherited `track_data` store. -/
structure MPState where
  index : Int
  normal_volume : Option ℚ
  tracks : List String
  mpcVolume : ℚ
  trace : List EngineCall
  track_data : TrackData
  deriving DecidableEq, Repr

/-- A freshly constructed `MPlayerService` (`__init__`): index 0, no
remembered volume, empty playlist, empty store; the engine starts with
some volume of its own. -/
def mkMPState (engineVolume : ℚ) : MPState :=
  { index := 0, normal_volume := Option.none, tracks := [],
    mpcVolume := engineVolume, trace := [], track_data := [] }

/-- `MPlayerService.clear_list`: `self.tracks = []`. -/
def MPlayerService.clear_list (s : MPState) : MPState := { s with tracks := [] }

/-- `MPlayerService.add_list`: `self.tracks += tracks`. -/
def MPlayerService.add_list (s : MPState) (ts : List String) : MPState :=
  { s with tracks := s.tracks ++ ts }

/-- `MPlayerService.stop`: `self.mpc.stop()` then `return True`
(unconditionally, per the code and its TODO). -/
def MPlayerService.stop (s : MPState) : MPState × Bool :=
  ({ s with trace := s.trace ++ [EngineCall.mstop] }, true)

/-- `MPlayerService.play`: call `self.stop()`, then when the playlist is
non-empty `loadfile` its first track and append every remaining track
with `loadfile(track, 1)`. -/
def MPlayerService.play (s : MPState) : MPState :=
  let s1 := (MPlayerService.stop s).1
  match s1.tracks with
  | [] => s1
  | t :: rest =>
      { s1 with trace := s1.trace ++ EngineCall.loadfile t false
          :: rest.map (fun tr => EngineCall.loadfile tr true) }

/-- `MPlayerService.lower_volume`: only when `normal_volume is None`,
remember `self.mpc.volume` and set the engine volume to a third of it. -/
def MPlayerService.lower_volume (s : MPState) : MPState :=
  match s.normal_volume with
  | Option.none =>
      { s with normal_volume := some s.mpcVolume, mpcVolume := s.mpcVolume / 3 }
  | some _ => s

/-- `MPlayerService.restore_volume`: set the engine volume back to
`normal_volume` when that is truthy (Python `if self.normal_volume:`),
otherwise to the fixed fallback 50; then clear `normal_volume`. -/
def MPlayerService.restore_volume (s : MPState) : MPState :=
  match s.normal_volume with
  | some v =>
      if v ≠ 0 then { s with mpcVolume := v, normal_volume := Option.none }
      else { s with mpcVolume := 50, normal_volume := Option.none }
  | Option.none => { s with mpcVolume := 50, normal_volume := Option.none }

/-- `MPlayerService.shutdown`: `self.mpc.destroy()` and nothing else —
in particular no call to `stop`. -/
def MPlayerService.shutdown (s : MPState) : MPState :=
  { s with trace := s.trace ++ [EngineCall.destroy] }

/-! ### Association-list lemmas -/

theorem alGet_alSet_self {α β : Type} [DecidableEq α] (d : List (α × β)) (k : α) (v : β) :
    alGet (alSet d k v) k = some v := by
  induction d with
  | nil => simp [alSet, alGet]
  | cons hd tl ih =>
      obtain ⟨k', v'⟩ := hd
      by_cases h : k' = k
      · simp [alSet, alGet, h]
      · simp [alSet, alGet, h, ih]

theorem alGet_alSet_ne {α β : Type} [DecidableEq α] (d : List (α × β)) (k k' : α) (v : β)
    (h : k' ≠ k) : alGet (alSet d k v) k' = alGet d k' := by
  have hne : ¬ k = k' := fun hh => h hh.symm
  induction d with
  | nil => simp [alSet, alGet, hne]
  | cons hd tl ih =>
      obtain ⟨k0, v0⟩ := hd
      by_cases h0 : k0 = k
      · subst h0
        simp [alSet, alGet, hne]
      · simp [alSet, alGet, h0, ih]

theorem alSet_alSet_self {α β : Type} [DecidableEq α] (d : List (α × β)) (k : α) (v w : β) :
    alSet (alSet d k v) k w = alSet d k w := by
  induction d with
  | nil => simp [alSet]
  | cons hd tl ih =>
      obtain ⟨k', v'⟩ := hd
      by_cases h : k' = k
      · simp [alSet, h]
      · simp [alSet, h, ih]

theorem alSet_of_alGet_eq {α β : Type} [DecidableEq α] (d : List (α × β)) (k : α) (v : β)
    (h : alGet d k = some v) : alSet d k v = d := by
  induction d with
  | nil => simp [alGet] at h
  | cons hd tl ih =>
      obtain ⟨k', v'⟩ := hd
      by_cases h0 : k' = k
      · subst h0
        simp [alGet] at h
        simp [alSet, h]
      · simp [alGet, h0] at h
        simp [alSet, h0, ih h]

/-! ### Merge-loop lemmas -/

theorem mergeLoop_ok (data : MetaDict) :
    ∀ (store : TrackData) (idx : Val) (md : MetaDict), alGet store idx = some md →
      mergeLoop store idx data = Except.ok (alSet store idx (mergeFields md data)) := by
  induction data with
  | nil =>
      intro store idx md h
      simp [mergeLoop, mergeFields, alSet_of_alGet_eq store idx md h]
  | cons hd rest ih =>
      intro store idx md h
      obtain ⟨k, v⟩ := hd
      cases ht : truthy v with
      | true =>
          have hstep := ih (alSet store idx (alSet md k v)) idx (alSet md k v)
            (alGet_alSet_self store idx (alSet md k v))
          simp [mergeLoop, ht, h, mergeFields, hstep, alSet_alSet_self]
      | false =>
          simp [mergeLoop, ht, mergeFields, ih store idx md h]

theorem mergeLoop_keyError (data : MetaDict) (store : TrackData) (idx : Val)
    (hnone : alGet store idx = Option.none) (htr : ∃ kv ∈ data, truthy kv.2 = true) :
    mergeLoop store idx data = Except.error "KeyError" := by
  induction data with
  | nil => simp at htr
  | cons hd rest ih =>
      obtain ⟨k, v⟩ := hd
      cases ht : truthy v with
      | true => simp [mergeLoop, ht, hnone]
      | false =>
          have : ∃ kv ∈ rest, truthy kv.2 = true := by
            obtain ⟨kv, hmem, hkv⟩ := htr
            rcases List.mem_cons.mp hmem with heq | hmem'
            · subst heq; simp [ht] at hkv
            · exact ⟨kv, hmem', hkv⟩
          simp [mergeLoop, ht, ih this]

theorem mergeLoop_falsy (data : MetaDict) (store : TrackData) (idx : Val)
    (hfal : ∀ kv ∈ data, truthy kv.2 = false) :
    mergeLoop store idx data = Except.ok store := by
  induction data with
  | nil => simp [mergeLoop]
  | cons hd rest ih =>
      obtain ⟨k, v⟩ := hd
      have hv : truthy v = false := hfal (k, v) (List.mem_cons_self _ _)
      have hrest : ∀ kv ∈ rest, truthy kv.2 = false :=
        fun kv hm => hfal kv (List.mem_cons_of_mem _ hm)
      simp [mergeLoop, hv, ih hrest]

/-! ### Pointwise characterization of the merge -/

theorem alGet_mergeFields (e : MetaDict) :
    ∀ (md : MetaDict) (k : String),
      alGet (mergeFields md e) k = oor (lastWrite e k) (alGet md k) := by
  induction e with
  | nil => intro md k; simp [mergeFields, lastWrite, oor]
  | cons hd rest ih =>
      intro md k
      obtain ⟨k', v⟩ := hd
      rw [show mergeFields md ((k', v) :: rest)
            = mergeFields (if truthy v then alSet md k' v else md) rest from rfl]
      rw [ih]
      rw [show lastWrite ((k', v) :: rest) k
            = oor (lastWrite rest k)
                (if k' = k ∧ truthy v = true then some v else Option.none) from rfl]
      cases hlw : lastWrite rest k with
      | some w => simp [oor]
      | none =>
          simp only [oor]
          by_cases hk : k' = k
          · cases ht : truthy v with
            | true => subst hk; simp [ht, oor, alGet_alSet_self]
            | false => simp [hk, ht, oor]
          · cases ht : truthy v with
            | true =>
                have : k ≠ k' := fun hh => hk hh.symm
                simp [hk, ht, oor, alGet_alSet_ne md k' k v this]
            | false => simp [hk, ht, oor]

theorem alGet_foldMerge (events : List MetaDict) :
    ∀ (md : MetaDict) (k : String),
      alGet (foldMerge md events) k = oor (multiWrite events k) (alGet md k) := by
  induction events with
  | nil => intro md k; simp [foldMerge, multiWrite, oor]
  | cons e rest ih =>
      intro md k
      rw [show foldMerge md (e :: rest) = foldMerge (mergeFields md e) rest from rfl]
      rw [ih, alGet_mergeFields]
      rw [show multiWrite (e :: rest) k = oor (multiWrite rest k) (lastWrite e k) from rfl]
      cases multiWrite rest k <;> simp [oor]

theorem lastWrite_mem (e : MetaDict) (k : String) (v : Val)
    (h : lastWrite e k = some v) : (k, v) ∈ e ∧ truthy v = true := by
  induction e with
  | nil => simp [lastWrite] at h
  | cons hd rest ih =>
      obtain ⟨k', w⟩ := hd
      rw [show lastWrite ((k', w) :: rest) k
            = oor (lastWrite rest k)
                (if k' = k ∧ truthy w = true then some w else Option.none) from rfl] at h
      cases hlw : lastWrite rest k with
      | some u =>
          rw [hlw] at h
          simp [oor] at h
          subst h
          obtain ⟨hmem, htr⟩ := ih hlw
          exact ⟨List.mem_cons_of_mem _ hmem, htr⟩
      | none =>
          rw [hlw] at h
          simp only [oor] at h
          by_cases hc : k' = k ∧ truthy w = true
          · rw [if_pos hc] at h
            obtain ⟨hk, ht⟩ := hc
            cases h
            subst hk
            exact ⟨List.mem_cons_self _ _, ht⟩
          · rw [if_neg hc] at h
            exact Option.noConfusion h

theorem multiWrite_some_mem (events : List MetaDict) (k : String) (v : Val)
    (h : multiWrite events k = some v) : ∃ e ∈ events, lastWrite e k = some v := by
  induction events with
  | nil => simp [multiWrite] at h
  | cons e rest ih =>
      rw [show multiWrite (e :: rest) k = oor (multiWrite rest k) (lastWrite e k) from rfl] at h
      cases hmw : multiWrite rest k with
      | some u =>
          rw [hmw] at h
          simp [oor] at h
          subst h
          obtain ⟨e', hmem, he'⟩ := ih hmw
          exact ⟨e', List.mem_cons_of_mem _ hmem, he'⟩
      | none =>
          rw [hmw] at h
          simp only [oor] at h
          exact ⟨e, List.mem_cons_self _ _, h⟩

theorem multiWrite_eq_none (events : List MetaDict) (k : String) :
    multiWrite events k = Option.none ↔ ∀ e ∈ events, lastWrite e k = Option.none := by
  induction events with
  | nil => simp [multiWrite]
  | cons e rest ih =>
      rw [show multiWrite (e :: rest) k = oor (multiWrite rest k) (lastWrite e k) from rfl]
      cases hmw : multiWrite rest k with
      | some u =>
          simp only [oor]
          constructor
          · intro h; exact Option.noConfusion h
          · intro h
            have := (ih.mpr (fun e' hm => h e' (List.mem_cons_of_mem _ hm)))
            rw [hmw] at this
            exact Option.noConfusion this
      | none =>
          simp only [oor]
          constructor
          · intro h e' hm
            rcases List.mem_cons.mp hm with heq | hm'
            · subst heq; exact h
            · exact ih.mp hmw e' hm'
          · intro h; exact h e (List.mem_cons_self _ _)

theorem multiWrite_perm (events evs2 : List MetaDict) (hperm : evs2.Perm events)
    (hnc : noConflict events) (k : String) :
    multiWrite evs2 k = multiWrite events k := by
  cases h2 : multiWrite evs2 k with
  | none =>
      cases h1 : multiWrite events k with
      | none => rfl
      | some v =>
          obtain ⟨e, hmem, he⟩ := multiWrite_some_mem events k v h1
          have hmem2 : e ∈ evs2 := (hperm.mem_iff).mpr hmem
          have := (multiWrite_eq_none evs2 k).mp h2 e hmem2
          rw [he] at this
          exact Option.noConfusion this
  | some v =>
      cases h1 : multiWrite events k with
      | none =>
          obtain ⟨e, hmem, he⟩ := multiWrite_some_mem evs2 k v h2
          have hmem1 : e ∈ events := (hperm.mem_iff).mp hmem
          have := (multiWrite_eq_none events k).mp h1 e hmem1
          rw [he] at this
          exact Option.noConfusion this
      | some w =>
          obtain ⟨e2, hmem2, he2⟩ := multiWrite_some_mem evs2 k v h2
          obtain ⟨e1, hmem1, he1⟩ := multiWrite_some_mem events k w h1
          have hmem2' : e2 ∈ events := (hperm.mem_iff).mp hmem2
          obtain ⟨hv2, ht2⟩ := lastWrite_mem e2 k v he2
          obtain ⟨hv1, ht1⟩ := lastWrite_mem e1 k w he1
          rw [hnc e2 hmem2' e1 hmem1 k v w hv2 hv1 ht2 ht1]

/-! ### Event application and uri resolution -/

theorem resolvedIndex_of_position (store : TrackData) (data : MetaDict) (idxV : Val)
    (hpos : pyGet data "playlist_position" = idxV) (hne : idxV ≠ Val.none) :
    resolvedIndex store data = idxV := by
  have hcond : ¬ (pyGet data "playlist_position" = Val.none
      ∧ truthy (pyGet data "uri") = true) := by
    intro hc
    exact hne (hpos.symm.trans hc.1)
  rw [show resolvedIndex store data
        = if pyGet data "playlist_position" = Val.none
              ∧ truthy (pyGet data "uri") = true then
            (match uri2index store (pyGet data "uri") with
             | some idx => idx
             | Option.none => Val.none)
          else pyGet data "playlist_position" from rfl]
  rw [if_neg hcond]
  exact hpos

theorem handle_track_status_of_position (store : TrackData) (data : MetaDict) (idxV : Val)
    (md : MetaDict) (hpos : pyGet data "playlist_position" = idxV) (hne : idxV ≠ Val.none)
    (hmd : alGet store idxV = some md) :
    handle_track_status store data = Except.ok (alSet store idxV (mergeFields md data)) := by
  rw [show handle_track_status store data
        = if resolvedIndex store data = Val.none then Except.ok store
          else mergeLoop store (resolvedIndex store data) data from rfl]
  rw [resolvedIndex_of_position store data idxV hpos hne, if_neg hne]
  exact mergeLoop_ok data store idxV md hmd

theorem applyEvents_ok (events : List MetaDict) :
    ∀ (store : TrackData) (idxV : Val) (md : MetaDict), idxV ≠ Val.none →
      (∀ e ∈ events, pyGet e "playlist_position" = idxV) →
      alGet store idxV = some md →
      applyEvents store events = Except.ok (alSet store idxV (foldMerge md events)) := by
  induction events with
  | nil =>
      intro store idxV md _ _ hmd
      simp [applyEvents, foldMerge, alSet_of_alGet_eq store idxV md hmd]
  | cons e rest ih =>
      intro store idxV md hne hpos hmd
      have h1 := handle_track_status_of_position store e idxV md
        (hpos e (List.mem_cons_self _ _)) hne hmd
      have h2 := ih (alSet store idxV (mergeFields md e)) idxV (mergeFields md e) hne
        (fun e' hm => hpos e' (List.mem_cons_of_mem _ hm))
        (alGet_alSet_self store idxV (mergeFields md e))
      rw [show applyEvents store (e :: rest)
            = (match handle_track_status store e with
               | Except.ok s => applyEvents s rest
               | Except.error msg => Except.error msg) from rfl]
      rw [h1]
      simp only []
      rw [h2, alSet_alSet_self]
      rfl

theorem uri2index_some (store : TrackData) (uri : Val) (idx : Val)
    (h : uri2index store uri = some idx) :
    ∃ pre md post, store = pre ++ (idx, md) :: post
      ∧ pyGetD md "uri" (Val.str "") = uri
      ∧ ∀ p ∈ pre, pyGetD p.2 "uri" (Val.str "") ≠ uri := by
  induction store with
  | nil => simp [uri2index] at h
  | cons hd rest ih =>
      obtain ⟨i, m⟩ := hd
      by_cases hu : pyGetD m "uri" (Val.str "") = uri
      · rw [show uri2index ((i, m) :: rest) uri
              = if pyGetD m "uri" (Val.str "") = uri then some i
                else uri2index rest uri from rfl, if_pos hu] at h
        cases h
        exact ⟨[], m, rest, by simp, hu, by simp⟩
      · rw [show uri2index ((i, m) :: rest) uri
              = if pyGetD m "uri" (Val.str "") = uri then some i
                else uri2index rest uri from rfl, if_neg hu] at h
        obtain ⟨pre, md, post, hsplit, hmd, hpre⟩ := ih h
        refine ⟨(i, m) :: pre, md, post, by simp [hsplit], hmd, ?_⟩
        intro p hp
        rcases List.mem_cons.mp hp with heq | hm
        · subst heq; exact hu
        · exact hpre p hm

theorem uri2index_none_iff (store : TrackData) (uri : Val) :
    uri2index store uri = Option.none ↔
      ∀ p ∈ store, pyGetD p.2 "uri" (Val.str "") ≠ uri := by
  induction store with
  | nil => simp [uri2index]
  | cons hd rest ih =>
      obtain ⟨i, m⟩ := hd
      rw [show uri2index ((i, m) :: rest) uri
            = if pyGetD m "uri" (Val.str "") = uri then some i
              else uri2index rest uri from rfl]
      by_cases hu : pyGetD m "uri" (Val.str "") = uri
      · rw [if_pos hu]
        constructor
        · intro h; exact Option.noConfusion h
        · intro h; exact absurd hu (h (i, m) (List.mem_cons_self _ _))
      · rw [if_neg hu]
        constructor
        · intro h p hp
          rcases List.mem_cons.mp hp with heq | hm
          · subst heq; exact hu
          · exact ih.mp h p hm
        · intro h
          exact ih.mpr (fun p hm => h p (List.mem_cons_of_mem _ hm))

/-! ### Claims -/

/-- Claim C1, counterexample. The claim states that `handle_track_status`
creates the store entry for a determined index when none exists.  On the
empty store, an event carrying `playlist_position = 1` and a truthy field
raises `KeyError` (from `self.track_data[index][k]`) instead: no store is
produced and no entry is created. -/
theorem claimC1_counterexample :
    handle_track_status []
        [("playlist_position", Val.int 1), ("title", Val.str "T")]
      = Except.error "KeyError"
    ∧ ¬ ∃ s, handle_track_status []
        [("playlist_position", Val.int 1), ("title", Val.str "T")] = Except.ok s := by
  constructor
  · rfl
  · intro h
    obtain ⟨s, hs⟩ := h
    rw [show handle_track_status []
          [("playlist_position", Val.int 1), ("title", Val.str "T")]
        = Except.error "KeyError" from rfl] at hs
    exact Except.noConfusion hs

/-- Claim C1, amended. For every status event whose playlist index is
determined (from `playlist_position` or resolved via `uri`),
`handle_track_status` merges every non-empty (truthy) field of the event
payload into the metadata store entry for that index when such an entry
already exists; when no entry exists, the handler raises `KeyError` as
soon as the payload has a truthy field (it does not create the entry),
and leaves the store unchanged when every payload field is falsy. -/
theorem claimC1_amended (store : TrackData) (data : MetaDict)
    (hidx : resolvedIndex store data ≠ Val.none) :
    (∀ md, alGet store (resolvedIndex store data) = some md →
        handle_track_status store data
          = Except.ok (alSet store (resolvedIndex store data) (mergeFields md data)))
    ∧ (alGet store (resolvedIndex store data) = Option.none →
        ((∃ kv ∈ data, truthy kv.2 = true) →
            handle_track_status store data = Except.error "KeyError")
        ∧ ((∀ kv ∈ data, truthy kv.2 = false) →
            handle_track_status store data = Except.ok store)) := by
  have hunfold : handle_track_status store data
      = mergeLoop store (resolvedIndex store data) data := by
    rw [show handle_track_status store data
          = if resolvedIndex store data = Val.none then Except.ok store
            else mergeLoop store (resolvedIndex store data) data from rfl, if_neg hidx]
  refine ⟨fun md hmd => ?_, fun hnone => ⟨fun htr => ?_, fun hfal => ?_⟩⟩
  · rw [hunfold]; exact mergeLoop_ok data store _ md hmd
  · rw [hunfold]; exact mergeLoop_keyError data store _ hnone htr
  · rw [hunfold]; exact mergeLoop_falsy data store _ hfal

/-- Claim C1, witness: a concrete event with `playlist_position = 0` and
an existing entry for index 0; the truthy `title` field is merged, the
falsy `playlist_position = 0` field is not. -/
theorem claimC1_witness :
    handle_track_status [(Val.int 0, [("uri", Val.str "u")])]
        [("playlist_position", Val.int 0), ("title", Val.str "A")]
      = Except.ok [(Val.int 0, [("uri", Val.str "u"), ("title", Val.str "A")])] :=
  (claimC1_amended [(Val.int 0, [("uri", Val.str "u")])]
      [("playlist_position", Val.int 0), ("title", Val.str "A")]
      (by decide)).1 [("uri", Val.str "u")] (by decide)

/-- Claim C3, counterexample. The claim promises a final merged record
for every finite event sequence for an index; but on a store with no
entry for the index, already a single event with a truthy field raises
`KeyError` and yields no final record at all. -/
theorem claimC3_counterexample :
    applyEvents [] [[("playlist_position", Val.int 2), ("artist", Val.str "B")]]
      = Except.error "KeyError"
    ∧ ¬ ∃ s, applyEvents []
        [[("playlist_position", Val.int 2), ("artist", Val.str "B")]]
        = Except.ok s := by
  constructor
  · rfl
  · intro h
    obtain ⟨s, hs⟩ := h
    rw [show applyEvents [] [[("playlist_position", Val.int 2), ("artist", Val.str "B")]]
        = Except.error "KeyError" from rfl] at hs
    exact Except.noConfusion hs

/-- Claim C3, amended. For every finite sequence of status events
carrying `playlist_position = idxV` for an index that already has a
store entry: applying `handle_track_status` to all of them succeeds and
updates exactly that entry; each field of the final record is the last
truthy value sent for it, or the initial value when no truthy value was
ever sent (so the final record is the initial entry plus the union of
the truthy fields of the events); no truthy stored field is ever
replaced by a falsy value; and as a key-to-value mapping the final
record is independent of delivery order provided no two events supply
different truthy values for the same field. -/
theorem claimC3_amended (store : TrackData) (idxV : Val) (md : MetaDict)
    (events evs2 : List MetaDict)
    (hne : idxV ≠ Val.none)
    (hpos : ∀ e ∈ events, pyGet e "playlist_position" = idxV)
    (hmd : alGet store idxV = some md) :
    applyEvents store events = Except.ok (alSet store idxV (foldMerge md events))
    ∧ (∀ k, alGet (foldMerge md events) k = oor (multiWrite events k) (alGet md k))
    ∧ (∀ k v, alGet md k = some v → truthy v = true →
        ∃ w, alGet (foldMerge md events) k = some w ∧ truthy w = true)
    ∧ (evs2.Perm events → noConflict events →
        ∀ k, alGet (foldMerge md evs2) k = alGet (foldMerge md events) k) := by
  refine ⟨applyEvents_ok events store idxV md hne hpos hmd,
          fun k => alGet_foldMerge events md k,
          fun k v hkv htv => ?_,
          fun hperm hnc k => ?_⟩
  · rw [alGet_foldMerge events md k]
    cases hmw : multiWrite events k with
    | none => exact ⟨v, by simp [oor, hkv], htv⟩
    | some w =>
        obtain ⟨e, hmem, he⟩ := multiWrite_some_mem events k w hmw
        obtain ⟨_, htw⟩ := lastWrite_mem e k w he
        exact ⟨w, by simp [oor], htw⟩
  · rw [alGet_foldMerge evs2 md k, alGet_foldMerge events md k,
        multiWrite_perm events evs2 hperm hnc k]

/-- Claim C3, witness: the spec's own example sequence (title "A", then a
falsy artist, then artist "B") against an existing entry for index 0;
the falsy artist does not erase anything and the final record is the
union. -/
theorem claimC3_witness :
    applyEvents [(Val.int 0, [("uri", Val.str "x")])]
        [[("playlist_position", Val.int 0), ("title", Val.str "A")],
         [("playlist_position", Val.int 0), ("artist", Val.str "")],
         [("playlist_position", Val.int 0), ("artist", Val.str "B")]]
      = Except.ok [(Val.int 0,
          [("uri", Val.str "x"), ("title", Val.str "A"), ("artist", Val.str "B")])] :=
  (claimC3_amended [(Val.int 0, [("uri", Val.str "x")])] (Val.int 0)
      [("uri", Val.str "x")]
      [[("playlist_position", Val.int 0), ("title", Val.str "A")],
       [("playlist_position", Val.int 0), ("artist", Val.str "")],
       [("playlist_position", Val.int 0), ("artist", Val.str "B")]]
      [] (by decide) (by decide) (by decide)).1

/-- Claim C4, confirmed. For an event without `playlist_position` but
with a truthy `uri`: `uri2index` resolves to the first store entry (in
insertion order) whose stored `uri` field equals the event's uri; it
returns `None` exactly when no entry matches; and in that case
`handle_track_status` returns the store completely unchanged without
raising. -/
theorem claimC4 (store : TrackData) (data : MetaDict)
    (hpos : pyGet data "playlist_position" = Val.none)
    (huri : truthy (pyGet data "uri") = true) :
    (∀ idx, uri2index store (pyGet data "uri") = some idx →
        ∃ pre md post, store = pre ++ (idx, md) :: post
          ∧ pyGetD md "uri" (Val.str "") = pyGet data "uri"
          ∧ ∀ p ∈ pre, pyGetD p.2 "uri" (Val.str "") ≠ pyGet data "uri")
    ∧ (uri2index store (pyGet data "uri") = Option.none ↔
        ∀ p ∈ store, pyGetD p.2 "uri" (Val.str "") ≠ pyGet data "uri")
    ∧ (uri2index store (pyGet data "uri") = Option.none →
        handle_track_status store data = Except.ok store) := by
  refine ⟨fun idx h => uri2index_some store _ idx h,
          uri2index_none_iff store _,
          fun hnone => ?_⟩
  have hres : resolvedIndex store data = Val.none := by
    rw [show resolvedIndex store data
          = if pyGet data "playlist_position" = Val.none
                ∧ truthy (pyGet data "uri") = true then
              (match uri2index store (pyGet data "uri") with
               | some idx => idx
               | Option.none => Val.none)
            else pyGet data "playlist_position" from rfl]
    rw [if_pos ⟨hpos, huri⟩, hnone]
  rw [show handle_track_status store data
        = if resolvedIndex store data = Val.none then Except.ok store
          else mergeLoop store (resolvedIndex store data) data from rfl]
  rw [hres, if_pos rfl]

/-- Claim C4, witness: a store holding index 2 with uri "http://x" and
an event for the unknown uri "http://y"; the event is silently ignored
and the store is returned unchanged. -/
theorem claimC4_witness :
    handle_track_status [(Val.int 2, [("uri", Val.str "http://x")])]
        [("uri", Val.str "http://y"), ("album", Val.str "C")]
      = Except.ok [(Val.int 2, [("uri", Val.str "http://x")])] :=
  (claimC4 [(Val.int 2, [("uri", Val.str "http://x")])]
      [("uri", Val.str "http://y"), ("album", Val.str "C")]
      (by decide) (by decide)).2.2 (by decide)

/-- Claim C2, counterexample. On a freshly constructed mplayer backend,
`MPlayerService.shutdown` issues only the teardown call `mpc.destroy()`:
the engine never receives a stop signal, let alone before the teardown
call. -/
theorem claimC2_counterexample :
    (MPlayerService.shutdown (mkMPState 50)).trace = [EngineCall.destroy]
    ∧ EngineCall.mstop ∉ (MPlayerService.shutdown (mkMPState 50)).trace := by
  refine ⟨rfl, ?_⟩
  decide

/-- Claim C2, amended. The base `AudioBackend.shutdown` consists of
exactly one invocation of the backend's `stop`; but the concrete
`MPlayerService.shutdown` overrides it and issues only the engine
teardown call `mpc.destroy()`, never a stop call, so for the mplayer
backend the engine does not receive a stop signal before teardown. -/
theorem claimC2_amended :
    (∀ (σ : Type) (stopImpl : σ → σ × Bool) (s : σ),
        AudioBackend.shutdown stopImpl s = (stopImpl s).1)
    ∧ (∀ s : MPState,
        (MPlayerService.shutdown s).trace = s.trace ++ [EngineCall.destroy]
        ∧ EngineCall.mstop ∉
            List.drop s.trace.length (MPlayerService.shutdown s).trace) := by
  refine ⟨fun σ stopImpl s => rfl, fun s => ⟨rfl, ?_⟩⟩
  rw [show (MPlayerService.shutdown s).trace = s.trace ++ [EngineCall.destroy] from rfl]
  rw [List.drop_left]
  decide

/-- Claim C5 (code bug). `MPlayerService.stop` returns `True`
unconditionally — also on a freshly constructed backend on which
nothing is playing — contradicting the base-class contract
("True if playback was stopped, otherwise False") and its own TODO
comment. -/
theorem claimC5_bug :
    (MPlayerService.stop (mkMPState 50)).2 = true
    ∧ ∀ s : MPState, (MPlayerService.stop s).2 = true :=
  ⟨rfl, fun _ => rfl⟩

/-- Claim C6, confirmed. When the store has no entry for
`current_index`, the base `track_info` returns the record containing
exactly the one field `track_number = current_index` (and leaves the
store alone); when an entry exists it returns that entry's merged
metadata with `track_number` set to `current_index`. -/
theorem claimC6 (store : TrackData) (i : Int) :
    (alGet store (Val.int i) = Option.none →
        AudioBackend.track_info store i = (store, [("track_number", Val.int i)]))
    ∧ (∀ md, alGet store (Val.int i) = some md →
        (AudioBackend.track_info store i).2 = alSet md "track_number" (Val.int i)
        ∧ alGet (AudioBackend.track_info store i).2 "track_number"
            = some (Val.int i)) := by
  constructor
  · intro h
    simp [AudioBackend.track_info, h]
  · intro md h
    have h2 : (AudioBackend.track_info store i).2
        = alSet md "track_number" (Val.int i) := by
      simp [AudioBackend.track_info, h]
    exact ⟨h2, by rw [h2]; exact alGet_alSet_self _ _ _⟩

/-- Claim C6, witness: the empty store yields exactly
`{track_number: 0}`; a store with an entry for index 1 yields that
entry with `track_number` written. -/
theorem claimC6_witness :
    AudioBackend.track_info [] 0 = ([], [("track_number", Val.int 0)])
    ∧ (AudioBackend.track_info [(Val.int 1, [("title", Val.str "A")])] 1).2
        = alSet [("title", Val.str "A")] "track_number" (Val.int 1) :=
  ⟨(claimC6 [] 0).1 (by decide),
   ((claimC6 [(Val.int 1, [("title", Val.str "A")])] 1).2
      [("title", Val.str "A")] (by decide)).1⟩

/-- Claim C7, confirmed. `restore_volume` without a remembered
pre-ducking volume does not fail: it sets the engine volume to the
fallback 50 and leaves `normal_volume` empty. -/
theorem claimC7 (s : MPState) (h : s.normal_volume = Option.none) :
    MPlayerService.restore_volume s
      = { s with mpcVolume := 50, normal_volume := Option.none } := by
  simp [MPlayerService.restore_volume, h]

/-- Claim C7, witness: on a fresh backend whose engine volume is 10,
`restore_volume` selects the fallback 50. -/
theorem claimC7_witness :
    MPlayerService.restore_volume (mkMPState 10)
      = { mkMPState 10 with mpcVolume := 50, normal_volume := Option.none } :=
  claimC7 (mkMPState 10) rfl

/-- Claim C8, confirmed. From an un-ducked state, the first
`lower_volume` remembers the current engine volume and divides the
engine volume by 3; a second `lower_volume` is a complete no-op (it
changes neither the remembered baseline nor the engine volume). -/
theorem claimC8 (s : MPState) (h : s.normal_volume = Option.none) :
    (MPlayerService.lower_volume s).normal_volume = some s.mpcVolume
    ∧ (MPlayerService.lower_volume s).mpcVolume = s.mpcVolume / 3
    ∧ MPlayerService.lower_volume (MPlayerService.lower_volume s)
        = MPlayerService.lower_volume s := by
  have h1 : MPlayerService.lower_volume s
      = { s with normal_volume := some s.mpcVolume, mpcVolume := s.mpcVolume / 3 } := by
    simp [MPlayerService.lower_volume, h]
  refine ⟨by rw [h1], by rw [h1], ?_⟩
  rw [h1]
  simp [MPlayerService.lower_volume]

/-- Claim C8, witness: concrete double ducking from engine volume 30. -/
theorem claimC8_witness :
    (MPlayerService.lower_volume (mkMPState 30)).normal_volume
        = some (mkMPState 30).mpcVolume
    ∧ (MPlayerService.lower_volume (mkMPState 30)).mpcVolume
        = (mkMPState 30).mpcVolume / 3
    ∧ MPlayerService.lower_volume (MPlayerService.lower_volume (mkMPState 30))
        = MPlayerService.lower_volume (mkMPState 30) :=
  claimC8 (mkMPState 30) rfl

/-- Claim C9, confirmed. `clear_list`, then `add_list [t1, t2]`, then
`play`: the pending playlist is exactly `[t1, t2]` in order (no
deduplication or reordering), and `play` stops the engine and then
loads `t1` first, appending `t2`. -/
theorem claimC9 (s : MPState) (t1 t2 : String) :
    (MPlayerService.play (MPlayerService.add_list (MPlayerService.clear_list s)
        [t1, t2])).trace
      = s.trace ++ [EngineCall.mstop, EngineCall.loadfile t1 false,
          EngineCall.loadfile t2 true]
    ∧ (MPlayerService.add_list (MPlayerService.clear_list s) [t1, t2]).tracks
        = [t1, t2] := by
  constructor
  · simp [MPlayerService.play, MPlayerService.add_list, MPlayerService.clear_list,
      MPlayerService.stop]
  · rfl

/-- Claim C10, confirmed. When an entry for `current_index` exists, the
base `track_info` is not a pure read: it writes
`track_number = current_index` into that stored entry and returns the
stored record itself (the returned record is exactly the store's entry
after the call); no other store entry and no other field of the entry
changes. -/
theorem claimC10 (store : TrackData) (i : Int) (md : MetaDict)
    (h : alGet store (Val.int i) = some md) :
    (AudioBackend.track_info store i).1
        = alSet store (Val.int i) (alSet md "track_number" (Val.int i))
    ∧ alGet (AudioBackend.track_info store i).1 (Val.int i)
        = some (AudioBackend.track_info store i).2
    ∧ (∀ j, j ≠ Val.int i →
        alGet (AudioBackend.track_info store i).1 j = alGet store j)
    ∧ (∀ k, k ≠ "track_number" →
        alGet (AudioBackend.track_info store i).2 k = alGet md k)
    ∧ alGet (AudioBackend.track_info store i).2 "track_number" = some (Val.int i) := by
  have h1 : (AudioBackend.track_info store i).1
      = alSet store (Val.int i) (alSet md "track_number" (Val.int i)) := by
    simp [AudioBackend.track_info, h]
  have h2 : (AudioBackend.track_info store i).2
      = alSet md "track_number" (Val.int i) := by
    simp [AudioBackend.track_info, h]
  refine ⟨h1, ?_, ?_, ?_, ?_⟩
  · rw [h1, h2]; exact alGet_alSet_self _ _ _
  · intro j hj; rw [h1]; exact alGet_alSet_ne _ _ _ _ hj
  · intro k hk; rw [h2]; exact alGet_alSet_ne _ _ _ _ hk
  · rw [h2]; exact alGet_alSet_self _ _ _

/-- Claim C10, witness: a store with one entry for index 0; the call
updates that entry in place and returns it. -/
theorem claimC10_witness :
    (AudioBackend.track_info [(Val.int 0, [("title", Val.str "A")])] 0).1
      = alSet [(Val.int 0, [("title", Val.str "A")])] (Val.int 0)
          (alSet [("title", Val.str "A")] "track_number" (Val.int 0)) :=
  (claimC10 [(Val.int 0, [("title", Val.str "A")])] 0 [("title", Val.str "A")]
    (by decide)).1
